import Mathlib

/-!
Shallow embedding of the fuel-station back-office report logic:
the client-side filter/aggregate pipeline of `CustomerActivity.tsx`,
`ExpenseManagement.tsx` and the payment-history page, the date helpers of
`lib/utils.ts`, and (modelled from the specification, whose implementing
pages are not part of the analysed sources) the running-balance calculator
and the aging bucketizer.

Conventions of the embedding:
* JavaScript strings are Lean `String`s; the `<`/`>` comparisons the pages
  perform on ISO date strings are lexicographic comparison of code points
  (`strLt` below), which agrees with JS `<`/`>` on such strings.
* Money amounts carried as JS numbers are embedded as exact rationals `ℚ`.
* Code that can throw (`new Date(s).toISOString()` throws a `RangeError`
  when `s` is a non-empty unparseable date) is embedded in
  `Except Unit`, `.error ()` standing for the thrown exception.
-/

/-- Lexicographic strict order on char lists, comparing code points; this is
the order JS `<` uses on strings (restricted to BMP text). -/
def charListLt : List Char → List Char → Bool
  | [], [] => false
  | [], _ :: _ => true
  | _ :: _, [] => false
  | a :: as, b :: bs =>
    if a.toNat < b.toNat then true
    else if b.toNat < a.toNat then false
    else charListLt as bs

/-- JS string `<` (so `a > b` is `strLt b a`). -/
def strLt (a b : String) : Bool := charListLt a.data b.data

/-- JS `String.prototype.toLowerCase`, restricted to ASCII letters (the only
case mapping the searched business data uses). -/
def lowerStr (s : String) : String := String.mk (s.data.map Char.toLower)

/-- `hay` starts with `needle` (char-by-char). -/
def charsStartWith : List Char → List Char → Bool
  | [], _ => true
  | _ :: _, [] => false
  | a :: as, b :: bs => a == b && charsStartWith as bs

/-- Occurrence check behind JS `String.prototype.includes`: does `needle`
occur contiguously inside `hay`? -/
def containsSub : List Char → List Char → Bool
  | [], needle => charsStartWith needle []
  | hay@(_ :: rest), needle =>
    if charsStartWith needle hay then true else containsSub rest needle

/-- JS `hay.includes(needle)`. -/
def strIncludes (hay needle : String) : Bool := containsSub hay.data needle.data

/-- The proposition "`needle` occurs contiguously in `hay`", used to state
what `strIncludes` decides. -/
def SubstringOf (needle hay : String) : Prop :=
  ∃ pre post : List Char, hay.data = pre ++ needle.data ++ post

/-- Shape check for the first ten characters of a parseable ISO date string:
`YYYY-MM-DD` with a valid-looking month and day. -/
def isISODayShape : List Char → Bool
  | [y1, y2, y3, y4, h1, m1, m2, h2, d1, d2] =>
    y1.isDigit && y2.isDigit && y3.isDigit && y4.isDigit && h1 == '-' &&
    m1.isDigit && m2.isDigit && h2 == '-' && d1.isDigit && d2.isDigit &&
    (let m := (m1.toNat - 48) * 10 + (m2.toNat - 48)
     let d := (d1.toNat - 48) * 10 + (d2.toNat - 48)
     decide (1 ≤ m) && decide (m ≤ 12) && decide (1 ≤ d) && decide (d ≤ 31))
  | _ => false

/-- Embedding of the date-normalization idiom the report pages use,
e.g. `CustomerActivity.tsx:77`:
`activity.date ? new Date(activity.date).toISOString().split('T')[0] : ''`.
An empty (falsy) date short-circuits to `''`; a string carrying a UTC ISO
day (optionally followed by a `T...` time part) normalizes to its first ten
characters; any other non-empty string makes `new Date` produce an Invalid
Date, whose `toISOString()` throws a `RangeError` — embedded as `.error ()`. -/
def jsDateToISODayE (s : String) : Except Unit String :=
  if s == "" then .ok ""
  else if isISODayShape (s.data.take 10) &&
          (s.data.length == 10 || (s.data.getD 10 ' ' == 'T'))
  then .ok (String.mk (s.data.take 10))
  else .error ()

/-- `CustomerActivity` record, fields the filter/aggregate logic reads
(`CustomerActivity.tsx:18`). -/
structure Activity where
  customerName : String
  type : String
  description : String
  amount : ℚ
  date : String
  referenceNumber : String
  status : String
  deriving Repr, DecidableEq

/-- Filter criteria held in the page's component state
(`searchTerm`, `typeFilter`, `fromDate`, `toDate`). -/
structure FilterSpec where
  searchTerm : String
  typeFilter : String
  fromDate : String
  toDate : String
  deriving Repr, DecidableEq

/-- `matchesSearch` of `CustomerActivity.tsx:70-72`: each of the three string
fields is lowercased and checked for the lowercased search term. -/
def matchesSearch (a : Activity) (searchTerm : String) : Bool :=
  strIncludes (lowerStr a.customerName) (lowerStr searchTerm) ||
  strIncludes (lowerStr a.referenceNumber) (lowerStr searchTerm) ||
  strIncludes (lowerStr a.description) (lowerStr searchTerm)

/-- `matchesType` of `CustomerActivity.tsx:73`. -/
def matchesType (a : Activity) (typeFilter : String) : Bool :=
  typeFilter == "all" || a.type == typeFilter

/-- `matchesDateRange` of `CustomerActivity.tsx:75-84` (the same code, modulo
field names, appears in the payment-history page, lines 80-89): when either
bound is set, the record's date is normalized (which can throw, see
`jsDateToISODayE`) and the record fails the range when it is strictly below a
set `fromDate` or strictly above a set `toDate`. -/
def matchesDateRangeE (date fromD toD : String) : Except Unit Bool :=
  if fromD == "" && toD == "" then .ok true
  else do
    let d ← jsDateToISODayE date
    pure (!((fromD != "" && strLt d fromD) || (toD != "" && strLt toD d)))

/-- The filter callback of `CustomerActivity.tsx:69-87`: all three criteria
are evaluated (the date branch runs, and can throw, even when search or type
already failed) and conjoined. -/
def activityMatchesE (fs : FilterSpec) (a : Activity) : Except Unit Bool := do
  let ms := matchesSearch a fs.searchTerm
  let mt := matchesType a fs.typeFilter
  let md ← matchesDateRangeE a.date fs.fromDate fs.toDate
  pure (ms && mt && md)

/-- `Array.prototype.filter` with a callback that may throw: elements are
visited left to right, the first exception aborts the whole call, and the
source array is left untouched (the result is a fresh array of the kept
elements in order). -/
def filterByE (m : α → Except Unit Bool) : List α → Except Unit (List α)
  | [] => .ok []
  | a :: rest => do
    let b ← m a
    let r ← filterByE m rest
    pure (if b then a :: r else r)

/-- The filtering `useEffect` of `CustomerActivity.tsx:63-90` applied to a
loaded activity list. -/
def filterActivitiesE (fs : FilterSpec) (l : List Activity) :
    Except Unit (List Activity) :=
  filterByE (activityMatchesE fs) l

/-- The reduce of `CustomerActivity.tsx:171`:
`filtered.filter(a => a.type === 'sale').reduce((sum, a) => sum + a.amount, 0)`. -/
def totalSales (l : List Activity) : ℚ :=
  ((l.filter fun a => a.type == "sale").map (·.amount)).foldl (· + ·) 0

/-- The reduce of `CustomerActivity.tsx:172`, same shape for payments. -/
def totalPayments (l : List Activity) : ℚ :=
  ((l.filter fun a => a.type == "payment").map (·.amount)).foldl (· + ·) 0

/-- `inISODateRange` of `lib/utils.ts:80-83`: false when any argument is
empty, else an inclusive two-sided comparison. -/
def inISODateRange (dateISO fromISO toISO : String) : Bool :=
  if dateISO == "" || fromISO == "" || toISO == "" then false
  else !strLt dateISO fromISO && !strLt toISO dateISO

/-- `matchesDateRange` of `ExpenseManagement.tsx:846-859`: explicit
three-branch version (both bounds / from only / to only), inclusive
comparisons, same throwing normalization of the record's date. -/
def expenseMatchesDateRangeE (date fromD toD : String) : Except Unit Bool :=
  if fromD == "" && toD == "" then .ok true
  else do
    let d ← jsDateToISODayE date
    if fromD != "" && toD != "" then
      pure (!strLt d fromD && !strLt toD d)
    else if fromD != "" then
      pure (!strLt d fromD)
    else
      pure (!strLt toD d)

/-- Payment record of the payment-history page, fields its filter reads.
`referenceNumber` and `notes` are optional in the row shape (the page reads
them with `?.`), so they are embedded as `Option String`. -/
structure Payment where
  referenceNumber : Option String
  notes : Option String
  paymentMethod : String
  paymentDate : String
  amount : String
  deriving Repr, DecidableEq

/-- Filter criteria of the payment-history page. -/
structure PayFilterSpec where
  searchTerm : String
  methodFilter : String
  fromDate : String
  toDate : String
  deriving Repr, DecidableEq

/-- `matchesSearch` of the payment-history page (lines 75-77):
`payment.referenceNumber?.toLowerCase().includes(t) ||
payment.notes?.toLowerCase().includes(t)`. When a field is absent the
optional chain evaluates to `undefined`, which is falsy, so the disjunct
contributes `false` (it does not match-all). The same optional-chained shape
appears in `ExpenseManagement.tsx:841-843` over `description`/`receiptNumber`. -/
def paymentMatchesSearch (p : Payment) (searchTerm : String) : Bool :=
  (match p.referenceNumber with
   | some r => strIncludes (lowerStr r) (lowerStr searchTerm)
   | none => false) ||
  (match p.notes with
   | some n => strIncludes (lowerStr n) (lowerStr searchTerm)
   | none => false)

/-- The filter callback of the payment-history page (lines 74-91); its
`matchesDateRange` is the same code as `CustomerActivity`'s, so the same
embedding `matchesDateRangeE` is used. -/
def paymentMatchesE (fs : PayFilterSpec) (p : Payment) : Except Unit Bool := do
  let ms := paymentMatchesSearch p fs.searchTerm
  let mm := fs.methodFilter == "all" || p.paymentMethod == fs.methodFilter
  let md ← matchesDateRangeE p.paymentDate fs.fromDate fs.toDate
  pure (ms && mm && md)

/-- The filtering `useEffect` of the payment-history page. -/
def filterPaymentsE (fs : PayFilterSpec) (l : List Payment) :
    Except Unit (List Payment) :=
  filterByE (paymentMatchesE fs) l

/-- The accumulation shape of the page reduces, e.g.
`CustomerActivity.tsx:171-172`: `xs.reduce((sum, a) => sum + a, 0)`. -/
def reduceSum (l : List ℚ) : ℚ := l.foldl (· + ·) 0

/-- Modelled from the spec: the Running Balance Calculator (§4.2) — the page
implementing it is not among the analysed sources (`CustomerActivity`
receives each row's `balance` precomputed). Given an opening balance and the
signed amounts of the entity's events in ascending timestamp order, it folds
left to right, emitting the balance after each event:
`balance_i = balance_(i-1) + signedAmount(event_i)`. -/
def runningBalances (opening : ℚ) : List ℚ → List ℚ
  | [] => []
  | a :: rest => (opening + a) :: runningBalances (opening + a) rest

/-- Aging bucket labels of the aging reports (current / 30-59 / 60-89 / 90+). -/
inductive BucketLabel where
  | current
  | days30to59
  | days60to89
  | days90plus
  deriving Repr, DecidableEq

/-- An outstanding amount with its age in days (`now - originDate`); the age
may be negative for future-dated items. -/
structure AgedItem where
  amount : ℚ
  ageDays : Int
  deriving Repr, DecidableEq

/-- Modelled from the spec: the Aging Bucketizer classification (§4.3) — the
`AgingReports` page is routed in the app shell but is not among the analysed
sources. Lower bounds inclusive, upper bounds exclusive, final bucket
open-ended; negative ages fall in `current`. -/
def bucketOf (age : Int) : BucketLabel :=
  if age < 30 then .current
  else if age < 60 then .days30to59
  else if age < 90 then .days60to89
  else .days90plus

/-- Modelled from the spec: the summed amount of one aging bucket (§4.3). -/
def bucketSum (label : BucketLabel) (l : List AgedItem) : ℚ :=
  reduceSum ((l.filter fun x => bucketOf x.ageDays == label).map (·.amount))

/-- Total outstanding amount of a list of aged items. -/
def totalOutstanding (l : List AgedItem) : ℚ :=
  reduceSum (l.map (·.amount))

/-! ### Helper lemmas -/

theorem charListLt_nil_right (l : List Char) : charListLt l [] = false := by
  cases l <;> rfl

theorem charListLt_nil_left {l : List Char} (h : l ≠ []) :
    charListLt [] l = true := by
  cases l with
  | nil => exact absurd rfl h
  | cons a as => rfl

theorem string_data_eq_nil_iff (s : String) : s.data = [] ↔ s = "" := by
  cases s with
  | mk data =>
    constructor
    · intro h
      simp only at h
      subst h
      rfl
    · intro h
      rw [h]

/-- `¬(a < b)` is transitive for the lexicographic char order:
from `b ≤ a` and `c ≤ b` conclude `c ≤ a`. -/
theorem charListLt_false_trans :
    ∀ a b c : List Char, charListLt a b = false → charListLt b c = false →
      charListLt a c = false := by
  intro a
  induction a with
  | nil =>
    intro b c h1 h2
    cases b with
    | nil =>
      cases c with
      | nil => rfl
      | cons z zs => simp [charListLt] at h2
    | cons y ys => simp [charListLt] at h1
  | cons x xs ih =>
    intro b c h1 h2
    cases c with
    | nil => exact charListLt_nil_right _
    | cons z zs =>
      cases b with
      | nil => simp [charListLt] at h2
      | cons y ys =>
        have hxy : ¬ x.toNat < y.toNat := by
          by_contra hc
          simp [charListLt, hc] at h1
        have hyz : ¬ y.toNat < z.toNat := by
          by_contra hc
          simp [charListLt, hc] at h2
        have hxz : ¬ x.toNat < z.toNat := by omega
        show (if x.toNat < z.toNat then true
              else if z.toNat < x.toNat then false else charListLt xs zs) = false
        rw [if_neg hxz]
        by_cases hzx : z.toNat < x.toNat
        · rw [if_pos hzx]
        · rw [if_neg hzx]
          have hyx : ¬ y.toNat < x.toNat := by omega
          have hzy : ¬ z.toNat < y.toNat := by omega
          simp only [charListLt, if_neg hxy, if_neg hyx] at h1
          simp only [charListLt, if_neg hyz, if_neg hzy] at h2
          exact ih ys zs h1 h2

theorem reduceSum_nil : reduceSum [] = 0 := rfl

theorem foldl_add_shift (l : List ℚ) : ∀ s : ℚ,
    l.foldl (· + ·) s = s + l.foldl (· + ·) 0 := by
  induction l with
  | nil => intro s; simp
  | cons b t ih =>
    intro s
    simp only [List.foldl]
    rw [ih (s + b), ih (0 + b)]
    ring

theorem reduceSum_cons (a : ℚ) (l : List ℚ) :
    reduceSum (a :: l) = a + reduceSum l := by
  simp only [reduceSum, List.foldl]
  rw [foldl_add_shift l (0 + a)]
  ring

theorem runningBalances_length (opening : ℚ) :
    ∀ l : List ℚ, (runningBalances opening l).length = l.length := by
  intro l
  induction l generalizing opening with
  | nil => rfl
  | cons a rest ih => simp [runningBalances, ih]

theorem runningBalances_head (opening a : ℚ) (rest : List ℚ) :
    (runningBalances opening (a :: rest)).getD 0 0 = opening + a := rfl

theorem runningBalances_step (l : List ℚ) : ∀ (opening : ℚ) (i : Nat),
    i + 1 < l.length →
    (runningBalances opening l).getD (i + 1) 0 =
      (runningBalances opening l).getD i 0 + l.getD (i + 1) 0 := by
  induction l with
  | nil => intro o i h; simp at h
  | cons a rest ih =>
    intro o i h
    cases i with
    | zero =>
      cases rest with
      | nil => simp at h
      | cons b t =>
        simp only [runningBalances, List.getD_cons_succ, List.getD_cons_zero]
    | succ j =>
      simp only [runningBalances, List.getD_cons_succ]
      exact ih (o + a) j (by simpa using h)

theorem runningBalances_last (l : List ℚ) : ∀ opening : ℚ, l ≠ [] →
    (runningBalances opening l).getLast? = some (opening + reduceSum l) := by
  induction l with
  | nil => intro o h; exact absurd rfl h
  | cons a rest ih =>
    intro o _
    cases rest with
    | nil =>
      simp [runningBalances, reduceSum_cons, reduceSum_nil]
    | cons b t =>
      have hne : (b :: t) ≠ ([] : List ℚ) := by simp
      calc (runningBalances o (a :: b :: t)).getLast?
          = (runningBalances (o + a) (b :: t)).getLast? := by
            simp only [runningBalances]
            rw [List.getLast?_cons_cons]
        _ = some ((o + a) + reduceSum (b :: t)) := ih (o + a) hne
        _ = some (o + reduceSum (a :: b :: t)) := by
            rw [reduceSum_cons a (b :: t)]; ring_nf

theorem charsStartWith_iff (n : List Char) : ∀ h : List Char,
    charsStartWith n h = true ↔ ∃ post, h = n ++ post := by
  induction n with
  | nil =>
    intro h
    simp [charsStartWith]
  | cons a as ih =>
    intro h
    cases h with
    | nil =>
      simp [charsStartWith]
    | cons b bs =>
      simp only [charsStartWith, Bool.and_eq_true, beq_iff_eq, ih bs,
        List.cons_append, List.cons.injEq]
      constructor
      · rintro ⟨hab, post, hp⟩
        exact ⟨post, hab.symm, hp⟩
      · rintro ⟨post, h1, h2⟩
        exact ⟨h1.symm, post, h2⟩

theorem containsSub_iff : ∀ h n : List Char,
    containsSub h n = true ↔ ∃ pre post, h = pre ++ n ++ post := by
  intro h
  induction h with
  | nil =>
    intro n
    simp only [containsSub, charsStartWith_iff]
    constructor
    · rintro ⟨post, hp⟩
      exact ⟨[], post, by simpa using hp⟩
    · rintro ⟨pre, post, hp⟩
      refine ⟨post, ?_⟩
      rcases List.append_eq_nil.mp hp.symm with ⟨h1, h2⟩
      rcases List.append_eq_nil.mp h1 with ⟨h3, h4⟩
      simp [h2, h4]
  | cons c rest ih =>
    intro n
    simp only [containsSub]
    by_cases hp : charsStartWith n (c :: rest) = true
    · simp only [if_pos hp, true_iff]
      rcases (charsStartWith_iff n (c :: rest)).mp hp with ⟨post, hpost⟩
      exact ⟨[], post, by simpa using hpost⟩
    · rw [if_neg hp]
      rw [ih n]
      constructor
      · rintro ⟨pre, post, hp2⟩
        exact ⟨c :: pre, post, by simp [hp2]⟩
      · rintro ⟨pre, post, hp2⟩
        cases pre with
        | nil =>
          exfalso
          apply hp
          exact (charsStartWith_iff n (c :: rest)).mpr ⟨post, by simpa using hp2⟩
        | cons d pre' =>
          simp only [List.cons_append, List.cons.injEq] at hp2
          exact ⟨pre', post, hp2.2⟩

theorem strIncludes_iff (hay needle : String) :
    strIncludes hay needle = true ↔ SubstringOf needle hay := by
  simp only [strIncludes, SubstringOf]
  exact containsSub_iff hay.data needle.data

theorem filterByE_ok {α : Type} (m : α → Except Unit Bool) :
    ∀ {l r : List α}, filterByE m l = Except.ok r →
      r.Sublist l ∧ ∀ x ∈ r, m x = Except.ok true := by
  intro l
  induction l with
  | nil =>
    intro r h
    simp only [filterByE, Except.ok.injEq] at h
    subst h
    exact ⟨List.Sublist.refl _, by simp⟩
  | cons a rest ih =>
    intro r h
    simp only [filterByE, bind, Except.bind] at h
    cases hma : m a with
    | error e => rw [hma] at h; simp at h
    | ok b =>
      rw [hma] at h
      cases hrec : filterByE m rest with
      | error e => rw [hrec] at h; simp [Except.bind] at h
      | ok r' =>
        rw [hrec] at h
        simp only [Except.bind, pure, Except.pure, Except.ok.injEq] at h
        obtain ⟨hsub, hmem⟩ := ih hrec
        cases b with
        | false =>
          simp only [Bool.false_eq_true, if_neg (by simp : ¬False)] at h
          subst h
          exact ⟨hsub.cons a, hmem⟩
        | true =>
          simp only [if_pos rfl] at h
          subst h
          refine ⟨hsub.cons₂ a, ?_⟩
          intro x hx
          rcases List.mem_cons.mp hx with hxa | hxr
          · subst hxa; exact hma
          · exact hmem x hxr

theorem filterByE_of_all {α : Type} (m : α → Except Unit Bool) :
    ∀ l : List α, (∀ x ∈ l, m x = Except.ok true) →
      filterByE m l = Except.ok l := by
  intro l
  induction l with
  | nil => intro _; rfl
  | cons a rest ih =>
    intro hall
    have hma : m a = Except.ok true := hall a (by simp)
    have hrec : filterByE m rest = Except.ok rest :=
      ih fun x hx => hall x (List.mem_cons_of_mem a hx)
    simp [filterByE, bind, Except.bind, hma, hrec, pure, Except.pure]

theorem totalOutstanding_cons (x : AgedItem) (t : List AgedItem) :
    totalOutstanding (x :: t) = x.amount + totalOutstanding t := by
  simp [totalOutstanding, reduceSum_cons]

theorem bucketSum_cons (label : BucketLabel) (x : AgedItem) (t : List AgedItem) :
    bucketSum label (x :: t) =
      (if bucketOf x.ageDays = label then x.amount else 0) + bucketSum label t := by
  simp only [bucketSum, List.filter_cons]
  by_cases h : bucketOf x.ageDays = label
  · simp [h, reduceSum_cons]
  · simp [h]

theorem bucketSums_partition (l : List AgedItem) :
    bucketSum .current l + bucketSum .days30to59 l + bucketSum .days60to89 l +
      bucketSum .days90plus l = totalOutstanding l := by
  induction l with
  | nil => simp [bucketSum, totalOutstanding, reduceSum]
  | cons x t ih =>
    simp only [bucketSum_cons, totalOutstanding_cons]
    cases hb : bucketOf x.ageDays <;> simp [hb] <;> linarith

theorem matchesDateRangeE_eq (date fromD toD d : String)
    (hd : jsDateToISODayE date = Except.ok d) (h : ¬(fromD = "" ∧ toD = "")) :
    matchesDateRangeE date fromD toD =
      Except.ok (!((fromD != "" && strLt d fromD) || (toD != "" && strLt toD d))) := by
  have hc : (fromD == "" && toD == "") = false := by
    rcases not_and_or.mp h with h1 | h1 <;> simp [h1]
  simp [matchesDateRangeE, hc, hd, bind, Except.bind, pure, Except.pure]

theorem expenseMatchesDateRangeE_eq_matchesDateRangeE (date fromD toD : String) :
    expenseMatchesDateRangeE date fromD toD = matchesDateRangeE date fromD toD := by
  simp only [expenseMatchesDateRangeE, matchesDateRangeE]
  cases hc : (fromD == "" && toD == "") with
  | true => rfl
  | false =>
    simp only [Bool.and_eq_false_iff] at hc
    cases hparse : jsDateToISODayE date with
    | error e => simp [bind, Except.bind, hparse]
    | ok d =>
      simp only [bind, Except.bind, hparse]
      cases hf : (fromD == "") <;> cases ht : (toD == "") <;>
        simp only [hf, ht, bne, Bool.not_true, Bool.not_false, Bool.true_and,
          Bool.false_and, Bool.and_true, Bool.and_false, Bool.or_false,
          Bool.false_or, Bool.true_or, Bool.not_or, if_true, if_false] <;>
        first
          | rfl
          | (rw [hf] at hc; rw [ht] at hc; simp at hc)

theorem activityMatchesE_ok_true (fs : FilterSpec) (x : Activity)
    (h : activityMatchesE fs x = Except.ok true) :
    ∃ md, matchesDateRangeE x.date fs.fromDate fs.toDate = Except.ok md ∧
      (matchesSearch x fs.searchTerm && matchesType x fs.typeFilter && md) = true := by
  simp only [activityMatchesE, bind, Except.bind] at h
  cases hmd : matchesDateRangeE x.date fs.fromDate fs.toDate with
  | error e => rw [hmd] at h; simp at h
  | ok md =>
    rw [hmd] at h
    simp only [pure, Except.pure, Except.ok.injEq] at h
    exact ⟨md, rfl, h⟩

/-- When the impossible range `toDate < fromDate` (both set) is requested and
filtering completes without throwing, the result is empty: every kept record
would need a normalized date `d` with `fromDate ≤ d ≤ toDate`. -/
theorem filterActivitiesE_impossible_range_empty (fs : FilterSpec)
    (l r : List Activity) (hf : fs.fromDate ≠ "") (ht : fs.toDate ≠ "")
    (hlt : strLt fs.toDate fs.fromDate = true)
    (h : filterActivitiesE fs l = Except.ok r) : r = [] := by
  by_contra hne
  obtain ⟨x, hx⟩ := List.exists_mem_of_ne_nil r hne
  obtain ⟨md, hmd, hconj⟩ :=
    activityMatchesE_ok_true fs x ((filterByE_ok _ h).2 x hx)
  have hmdt : md = true := by
    simp only [Bool.and_eq_true] at hconj
    exact hconj.2
  subst hmdt
  have hc : (fs.fromDate == "" && fs.toDate == "") = false := by simp [hf]
  simp only [matchesDateRangeE, hc, Bool.false_eq_true, if_false, bind,
    Except.bind] at hmd
  cases hparse : jsDateToISODayE x.date with
  | error e => rw [hparse] at hmd; simp at hmd
  | ok d =>
    rw [hparse] at hmd
    simp only [pure, Except.pure, Except.ok.injEq] at hmd
    have hf1 : (fs.fromDate != "") = true := bne_iff_ne.mpr hf
    have ht1 : (fs.toDate != "") = true := bne_iff_ne.mpr ht
    rw [hf1, ht1, Bool.true_and, Bool.true_and] at hmd
    have h1 : strLt d fs.fromDate = false := by
      cases hb : strLt d fs.fromDate
      · rfl
      · rw [hb] at hmd; simp at hmd
    have h2 : strLt fs.toDate d = false := by
      cases hb : strLt fs.toDate d
      · rfl
      · rw [hb] at hmd; simp at hmd
    unfold strLt at h1 h2 hlt
    have h3 := charListLt_false_trans fs.toDate.data d.data fs.fromDate.data h2 h1
    simp [hlt] at h3

/-! ### Sample values used by witnesses -/

/-- A well-formed sample activity row. -/
def sampleActivity : Activity :=
  ⟨"ABC Transport", "sale", "Fuel refill", 100, "2024-01-15", "INV-1", "completed"⟩

/-- An activity row whose date field is empty. -/
def emptyDateActivity : Activity :=
  ⟨"No Date Co", "sale", "", 0, "", "REF-2", "pending"⟩

/-- A payment row with neither `referenceNumber` nor `notes`. -/
def samplePayment : Payment := ⟨none, none, "cash", "2024-01-01", "50"⟩

/-! ### Claims -/

/-- Claim C1: for every opening balance and ascending event sequence, each
running balance is the previous one plus the event's signed amount (the first
is opening + first amount), and for a non-empty sequence the last running
balance is the opening balance plus the reduce-style sum of all signed
amounts. -/
theorem claim_C1_running_balance_fold (opening : ℚ) (amts : List ℚ) :
    (runningBalances opening amts).length = amts.length ∧
    (amts ≠ [] →
      (runningBalances opening amts).getD 0 0 = opening + amts.getD 0 0) ∧
    (∀ i, i + 1 < amts.length →
      (runningBalances opening amts).getD (i + 1) 0 =
        (runningBalances opening amts).getD i 0 + amts.getD (i + 1) 0) ∧
    (amts ≠ [] →
      (runningBalances opening amts).getLast? = some (opening + reduceSum amts)) := by
  refine ⟨runningBalances_length opening amts, ?_,
    fun i h => runningBalances_step amts opening i h,
    fun h => runningBalances_last amts opening h⟩
  intro h
  cases amts with
  | nil => exact absurd rfl h
  | cons a rest => simp [runningBalances]

/-- Witness for C1 at the spec's worked example: amounts
`[100, -40, 25]`, opening balance `0`, snapshots `[100, 60, 85]`. -/
theorem claim_C1_witness :
    runningBalances 0 [(100 : ℚ), -40, 25] = [100, 60, 85] ∧
    (runningBalances 0 [(100 : ℚ), -40, 25]).getLast? =
      some (0 + reduceSum [(100 : ℚ), -40, 25]) :=
  ⟨by norm_num [runningBalances],
   (claim_C1_running_balance_fold 0 [100, -40, 25]).2.2.2 (by simp)⟩

/-- Claim C2: the aging buckets are characterized by disjoint, exhaustive age
ranges (current: age < 30, including negative ages; 30-59; 60-89; 90+
open-ended), so each item lands in exactly one bucket, and the four bucket
sums add up to the total outstanding amount; the spec's worked example
`[(500,10), (300,45), (200,95)] → (500, 300, 0, 200)` evaluates as stated. -/
theorem claim_C2_aging_bucket_partition :
    (∀ age : Int,
      (bucketOf age = BucketLabel.current ↔ age < 30) ∧
      (bucketOf age = BucketLabel.days30to59 ↔ 30 ≤ age ∧ age < 60) ∧
      (bucketOf age = BucketLabel.days60to89 ↔ 60 ≤ age ∧ age < 90) ∧
      (bucketOf age = BucketLabel.days90plus ↔ 90 ≤ age)) ∧
    (∀ l : List AgedItem,
      bucketSum .current l + bucketSum .days30to59 l + bucketSum .days60to89 l +
        bucketSum .days90plus l = totalOutstanding l) ∧
    bucketOf (-5) = BucketLabel.current ∧
    (bucketSum .current [⟨500, 10⟩, ⟨300, 45⟩, ⟨200, 95⟩] = 500 ∧
     bucketSum .days30to59 [⟨500, 10⟩, ⟨300, 45⟩, ⟨200, 95⟩] = 300 ∧
     bucketSum .days60to89 [⟨500, 10⟩, ⟨300, 45⟩, ⟨200, 95⟩] = 0 ∧
     bucketSum .days90plus [⟨500, 10⟩, ⟨300, 45⟩, ⟨200, 95⟩] = 200) := by
  refine ⟨?_, fun l => bucketSums_partition l, by decide,
    by simp +decide [bucketSum, bucketOf, List.filter_cons] <;> norm_num [reduceSum],
    by simp +decide [bucketSum, bucketOf, List.filter_cons] <;> norm_num [reduceSum],
    by simp +decide [bucketSum, bucketOf, List.filter_cons] <;> norm_num [reduceSum],
    by simp +decide [bucketSum, bucketOf, List.filter_cons] <;> norm_num [reduceSum]⟩
  intro age
  unfold bucketOf
  refine ⟨?_, ?_, ?_, ?_⟩ <;> split_ifs with h1 h2 h3 <;> simp <;> omega

/-- Claim C3 (code bug): the filter is not throw-free. A record whose date
field is a non-empty unparseable string makes the page's
`new Date(date).toISOString()` throw a `RangeError` (here `.error ()`) as
soon as any date bound is set, instead of degrading to an empty result; the
Expense page's `matchesDateRange` has the same unguarded normalization. Only
an empty (falsy) date degrades to `''` without throwing. -/
theorem claim_C3_unparseable_date_throws :
    filterActivitiesE ⟨"", "all", "2024-01-01", ""⟩
      [⟨"ABC Transport", "sale", "Fuel", 100, "not-a-date", "INV-7", "completed"⟩] =
      Except.error () ∧
    expenseMatchesDateRangeE "not-a-date" "2024-01-01" "" = Except.error () ∧
    jsDateToISODayE "" = Except.ok "" :=
  ⟨rfl, rfl, rfl⟩

/-- Claim C5 (code bug): with `fromDate > toDate` (both set) the
CustomerActivity filter still normalizes every record's date, so a record
with a non-empty unparseable date makes the call throw instead of returning
the empty set; the repository's own `inISODateRange` utility implements the
claimed contract (impossible range, no match, no error). -/
theorem claim_C5_impossible_range_error :
    strLt "2024-01-01" "2024-02-01" = true ∧
    filterActivitiesE ⟨"", "all", "2024-02-01", "2024-01-01"⟩
      [⟨"XYZ Co", "payment", "Cash", 50, "garbage-date", "PAY-9", "completed"⟩] =
      Except.error () ∧
    inISODateRange "2024-01-15" "2024-02-01" "2024-01-01" = false :=
  ⟨rfl, rfl, rfl⟩

/-- Claim C6: with a parseable (or empty) record date normalizing to `d`, the
date filter keeps the record iff `fromDate ≤ d ∧ d ≤ toDate` when both bounds
are set (inclusive on both), iff the single supplied bound holds when only
one is set, and always when neither is set; the Expense page's three-branch
`matchesDateRange` computes exactly the same result; the type filter keeps a
record iff the filter value is `all` or equals the record's type. -/
theorem claim_C6_date_and_type_filter_semantics
    (date d fromD toD : String) (hd : jsDateToISODayE date = Except.ok d) :
    (fromD ≠ "" → toD ≠ "" →
      matchesDateRangeE date fromD toD =
        Except.ok (!strLt d fromD && !strLt toD d)) ∧
    (fromD ≠ "" → toD = "" →
      matchesDateRangeE date fromD toD = Except.ok (!strLt d fromD)) ∧
    (fromD = "" → toD ≠ "" →
      matchesDateRangeE date fromD toD = Except.ok (!strLt toD d)) ∧
    (fromD = "" → toD = "" → matchesDateRangeE date fromD toD = Except.ok true) ∧
    expenseMatchesDateRangeE date fromD toD = matchesDateRangeE date fromD toD ∧
    (∀ (a : Activity) (tf : String),
      matchesType a tf = true ↔ (tf = "all" ∨ a.type = tf)) := by
  refine ⟨?_, ?_, ?_, ?_,
    expenseMatchesDateRangeE_eq_matchesDateRangeE date fromD toD, ?_⟩
  · intro hf ht
    rw [matchesDateRangeE_eq date fromD toD d hd (by tauto)]
    have h1 : (fromD != "") = true := bne_iff_ne.mpr hf
    have h2 : (toD != "") = true := bne_iff_ne.mpr ht
    simp [h1, h2, Bool.not_or]
  · intro hf ht
    rw [matchesDateRangeE_eq date fromD toD d hd (by tauto)]
    have h1 : (fromD != "") = true := bne_iff_ne.mpr hf
    have h2 : (toD != "") = false := by simp [ht]
    simp [h1, h2]
  · intro hf ht
    rw [matchesDateRangeE_eq date fromD toD d hd (by tauto)]
    have h1 : (fromD != "") = false := by simp [hf]
    have h2 : (toD != "") = true := bne_iff_ne.mpr ht
    simp [h1, h2]
  · intro hf ht
    subst hf; subst ht
    simp [matchesDateRangeE]
  · intro a tf
    simp [matchesType]

/-- Witness for C6 at a concrete in-range date with both bounds set. -/
theorem claim_C6_witness :
    matchesDateRangeE "2024-05-10" "2024-05-01" "2024-05-31" =
      Except.ok (!strLt "2024-05-10" "2024-05-01" && !strLt "2024-05-31" "2024-05-10") :=
  (claim_C6_date_and_type_filter_semantics "2024-05-10" "2024-05-10" "2024-05-01"
    "2024-05-31" rfl).1 (by decide) (by decide)

/-- Claim C7: a record matches the text search iff the lowercased search text
occurs as a substring of at least one of the lowercased searched fields
(name, reference, description); in particular `"abc"` matches the name
`"ABC Transport"` and not `"XYZ Co"`. -/
theorem claim_C7_text_search_semantics :
    (∀ (a : Activity) (t : String),
      matchesSearch a t = true ↔
        (SubstringOf (lowerStr t) (lowerStr a.customerName) ∨
         SubstringOf (lowerStr t) (lowerStr a.referenceNumber) ∨
         SubstringOf (lowerStr t) (lowerStr a.description))) ∧
    matchesSearch ⟨"ABC Transport", "sale", "", 0, "", "", ""⟩ "abc" = true ∧
    matchesSearch ⟨"XYZ Co", "sale", "", 0, "", "", ""⟩ "abc" = false := by
  refine ⟨?_, by decide, by decide⟩
  intro a t
  simp [matchesSearch, Bool.or_eq_true, strIncludes_iff, or_assoc]

/-- Claim C8: the filter is a pure function of its inputs — when it
completes, the result is a subsequence of the untouched source list (the
source is never mutated, elements are only selected in order), and re-running
the filter on its own output reproduces that output exactly (no hidden
state). -/
theorem claim_C8_filter_deterministic_pure (fs : FilterSpec)
    (l r : List Activity) (h : filterActivitiesE fs l = Except.ok r) :
    r.Sublist l ∧ filterActivitiesE fs r = Except.ok r := by
  obtain ⟨hsub, hmem⟩ := filterByE_ok (activityMatchesE fs) h
  exact ⟨hsub, filterByE_of_all _ r hmem⟩

/-- Witness for C8 on a one-element list that the empty filter keeps. -/
theorem claim_C8_witness :
    List.Sublist [sampleActivity] [sampleActivity] ∧
    filterActivitiesE ⟨"", "all", "", ""⟩ [sampleActivity] =
      Except.ok [sampleActivity] :=
  claim_C8_filter_deterministic_pure ⟨"", "all", "", ""⟩ [sampleActivity]
    [sampleActivity] rfl

/-- Claim C9: a record with an empty date field normalizes to `''`, which is
lexicographically below every ISO date string: when a non-empty `fromDate` is
set the record fails the date check (and so is excluded from the filtered
result for every search text and type filter), but when only a `toDate` is
set the date check passes and the record is kept whenever the other criteria
match. -/
theorem claim_C9_empty_date_asymmetry (fs : FilterSpec) (a : Activity)
    (hdate : a.date = "") :
    (fs.fromDate ≠ "" →
      activityMatchesE fs a = Except.ok false ∧
      ∀ l r, filterActivitiesE fs l = Except.ok r → a ∉ r) ∧
    (fs.fromDate = "" → fs.toDate ≠ "" →
      matchesDateRangeE a.date fs.fromDate fs.toDate = Except.ok true) := by
  constructor
  · intro hf
    have hmd : matchesDateRangeE a.date fs.fromDate fs.toDate =
        Except.ok false := by
      rw [hdate]
      rw [matchesDateRangeE_eq "" fs.fromDate fs.toDate "" rfl (by tauto)]
      have h1 : (fs.fromDate != "") = true := bne_iff_ne.mpr hf
      have h2 : strLt "" fs.fromDate = true := by
        apply charListLt_nil_left
        intro hdp
        exact hf ((string_data_eq_nil_iff fs.fromDate).mp hdp)
      have h3 : strLt fs.toDate "" = false := charListLt_nil_right _
      simp [h1, h2, h3]
    have hmatch : activityMatchesE fs a = Except.ok false := by
      simp [activityMatchesE, bind, Except.bind, hmd, pure, Except.pure]
    refine ⟨hmatch, ?_⟩
    intro l r hfil hmem
    have hm := (filterByE_ok _ hfil).2 a hmem
    rw [hmatch] at hm
    simp at hm
  · intro hf ht
    rw [hdate]
    rw [matchesDateRangeE_eq "" fs.fromDate fs.toDate "" rfl (by tauto)]
    have h1 : (fs.fromDate != "") = false := by simp [hf]
    have h3 : strLt fs.toDate "" = false := charListLt_nil_right _
    simp [h1, h3]

/-- Witness for C9: the empty-dated sample record is rejected as soon as a
`fromDate` is set, and passes the date check when only a `toDate` is set. -/
theorem claim_C9_witness :
    activityMatchesE ⟨"", "all", "2024-01-01", ""⟩ emptyDateActivity =
      Except.ok false ∧
    matchesDateRangeE emptyDateActivity.date "" "2024-12-31" =
      Except.ok true :=
  ⟨((claim_C9_empty_date_asymmetry ⟨"", "all", "2024-01-01", ""⟩
      emptyDateActivity rfl).1 (by decide)).1,
   (claim_C9_empty_date_asymmetry ⟨"", "all", "", "2024-12-31"⟩
      emptyDateActivity rfl).2 rfl (by decide)⟩

/-- Claim C10: a payment whose searchable fields are both absent never
matches the text search — the optional-chained lookups are falsy, not
match-all — so it is excluded from the filtered result for every filter
criteria, including the empty search text. -/
theorem claim_C10_absent_fields_excluded (p : Payment)
    (href : p.referenceNumber = none) (hnotes : p.notes = none) :
    (∀ t, paymentMatchesSearch p t = false) ∧
    (∀ fs l r, filterPaymentsE fs l = Except.ok r → p ∉ r) := by
  have hms : ∀ t, paymentMatchesSearch p t = false := by
    intro t
    simp [paymentMatchesSearch, href, hnotes]
  refine ⟨hms, ?_⟩
  intro fs l r hfil hmem
  have hm := (filterByE_ok _ hfil).2 p hmem
  simp only [paymentMatchesE, bind, Except.bind, hms] at hm
  cases hmd : matchesDateRangeE p.paymentDate fs.fromDate fs.toDate with
  | error e => rw [hmd] at hm; simp at hm
  | ok md => rw [hmd] at hm; simp [pure, Except.pure] at hm

/-- Witness for C10: the reference-less, note-less sample payment matches
neither the empty search text nor a non-trivial one. -/
theorem claim_C10_witness :
    paymentMatchesSearch samplePayment "" = false ∧
    paymentMatchesSearch samplePayment "abc" = false :=
  ⟨(claim_C10_absent_fields_excluded samplePayment rfl rfl).1 "",
   (claim_C10_absent_fields_excluded samplePayment rfl rfl).1 "abc"⟩
